import Mathlib

/-!
Verification development for the `json.query` Conduit processor
(`processor.go`).  The Go code is shallowly embedded: dynamic Go values
(`interface{}` trees coming from `encoding/json` and `opencdc`) become the
inductive `GoVal`; the `opencdc.Data` interface becomes `Data`;
`opencdc.Record` becomes `Record`; the external query engines
(`go-jmespath`'s compiled `Search` and `gojq`'s compiled `Run` iterator)
are modelled as function-valued fields of the processor state, since their
implementations live outside this repository.  `encoding/json`'s
`Unmarshal`/`Marshal` are modelled by a concrete executable JSON
decoder/encoder over `GoVal`.
-/

/-- Dynamic Go value tree, as produced by `encoding/json` decoding and by the
query engines.  `structured` is `opencdc.StructuredData` (a named Go map type
distinct, for `switch`-dispatch purposes, from a plain
`map[string]interface{}`, which is `map`).  Numbers are modelled as integers
(the claims under verification never depend on non-integer numerics). -/
inductive GoVal where
  | null : GoVal
  | bool : Bool → GoVal
  | num : Int → GoVal
  | str : String → GoVal
  | list : List GoVal → GoVal
  | map : List (String × GoVal) → GoVal
  | structured : List (String × GoVal) → GoVal
deriving Repr

mutual

/-- Embeds `convertStructuredData` (processor.go): recursively converts
`opencdc.StructuredData` and nested maps/slices to plain maps/slices,
returning primitives as-is. -/
def convertStructuredData : GoVal → GoVal
  | .null => .null
  | .bool b => .bool b
  | .num n => .num n
  | .str s => .str s
  | .list xs => .list (convertList xs)
  | .map fs => .map (convertFields fs)
  | .structured fs => .map (convertFields fs)

/-- Case `[]interface{}` of `convertStructuredData`: recursively convert the
slice elements. -/
def convertList : List GoVal → List GoVal
  | [] => []
  | x :: xs => convertStructuredData x :: convertList xs

/-- Cases `opencdc.StructuredData` / `map[string]interface{}` of
`convertStructuredData`: recursively convert the map values. -/
def convertFields : List (String × GoVal) → List (String × GoVal)
  | [] => []
  | (k, v) :: rest => (k, convertStructuredData v) :: convertFields rest

end

mutual

/-- True when no `structured` (backend-specific `opencdc.StructuredData`)
node occurs anywhere in the value tree. -/
def noStructured : GoVal → Bool
  | .null => true
  | .bool _ => true
  | .num _ => true
  | .str _ => true
  | .list xs => noStructuredList xs
  | .map fs => noStructuredFields fs
  | .structured _ => false

/-- `noStructured` on every element of a list. -/
def noStructuredList : List GoVal → Bool
  | [] => true
  | x :: xs => noStructured x && noStructuredList xs

/-- `noStructured` on every value of a field list. -/
def noStructuredFields : List (String × GoVal) → Bool
  | [] => true
  | (_, v) :: rest => noStructured v && noStructuredFields rest

end

/-! JSON text encoding, modelling `encoding/json.Marshal` on the dynamic
values the processor can hand it. -/

/-- One hexadecimal digit, lower case, as used by Go's `\u00xx` escapes. -/
def hexDigit (n : Nat) : String :=
  if n < 10 then String.mk [Char.ofNat (48 + n)]
  else String.mk [Char.ofNat (97 + (n - 10))]

/-- Escape a single character the way Go's `encoding/json` does inside a
string literal (with the default HTML-escaping of `<`, `>`, `&`). -/
def escChar (c : Char) : String :=
  if c = '"' then "\\\""
  else if c = '\\' then "\\\\"
  else if c = '\n' then "\\n"
  else if c = '\r' then "\\r"
  else if c = '\t' then "\\t"
  else if c = '<' then "\\u003c"
  else if c = '>' then "\\u003e"
  else if c = '&' then "\\u0026"
  else if c.toNat < 32 then "\\u00" ++ hexDigit (c.toNat / 16) ++ hexDigit (c.toNat % 16)
  else String.mk [c]

/-- JSON string literal for `s`. -/
def jsonQuote (s : String) : String :=
  "\"" ++ String.join (s.data.map escChar) ++ "\""

mutual

/-- Embeds `json.Marshal` on `GoVal` trees.  On the values this processor
marshals it cannot fail (Go's `Marshal` fails only for unsupported Go types
or non-finite floats, neither of which `GoVal` contains), so it is total.
Key order of maps is preserved rather than sorted; the processor only ever
marshals scalar or null results (maps and lists are intercepted by the
earlier cases of the encoder switch), for which this is exact. -/
def jsonMarshal : GoVal → String
  | .null => "null"
  | .bool true => "true"
  | .bool false => "false"
  | .num n => toString n
  | .str s => jsonQuote s
  | .list xs => "[" ++ marshalElems xs ++ "]"
  | .map fs => "\x7b" ++ marshalFields fs ++ "\x7d"
  | .structured fs => "\x7b" ++ marshalFields fs ++ "\x7d"

/-- Comma-separated marshalling of array elements. -/
def marshalElems : List GoVal → String
  | [] => ""
  | [x] => jsonMarshal x
  | x :: y :: xs => jsonMarshal x ++ "," ++ marshalElems (y :: xs)

/-- Comma-separated marshalling of object members. -/
def marshalFields : List (String × GoVal) → String
  | [] => ""
  | [(k, v)] => jsonQuote k ++ ":" ++ jsonMarshal v
  | (k, v) :: m :: fs => jsonQuote k ++ ":" ++ jsonMarshal v ++ "," ++ marshalFields (m :: fs)

end

/-! JSON text decoding, modelling `encoding/json.Unmarshal` into
`interface{}` on the JSON fragment the processor's inputs use (objects,
arrays, strings with simple escapes, integer numbers, booleans, null). -/

/-- JSON whitespace. -/
def isJsonWs (c : Char) : Bool :=
  c = ' ' || c = '\t' || c = '\n' || c = '\r'

/-- Drop leading JSON whitespace. -/
def skipWs (cs : List Char) : List Char :=
  cs.dropWhile isJsonWs

/-- ASCII decimal digit test. -/
def isDigitCh (c : Char) : Bool :=
  '0' ≤ c && c ≤ '9'

/-- Consume the exact literal `lit`, returning the remainder. -/
def expectLit : List Char → List Char → Option (List Char)
  | [], cs => some cs
  | _ :: _, [] => none
  | l :: ls, c :: cs => if c = l then expectLit ls cs else none

/-- Consume one or more decimal digits, returning their value. -/
def parseDigits (cs : List Char) : Option (Nat × List Char) :=
  let ds := cs.takeWhile isDigitCh
  if ds.isEmpty then none
  else some (ds.foldl (fun acc c => acc * 10 + (c.toNat - 48)) 0, cs.drop ds.length)

/-- Consume a JSON number (integer fragment: optional minus and digits;
a fractional part or exponent is outside the modelled fragment). -/
def parseNumber (cs : List Char) : Option (Int × List Char) :=
  match cs with
  | '-' :: rest =>
      match parseDigits rest with
      | some (n, r) =>
          match r with
          | c :: _ => if c = '.' || c = 'e' || c = 'E' then none else some (-(n : Int), r)
          | [] => some (-(n : Int), r)
      | none => none
  | _ =>
      match parseDigits cs with
      | some (n, r) =>
          match r with
          | c :: _ => if c = '.' || c = 'e' || c = 'E' then none else some ((n : Int), r)
          | [] => some ((n : Int), r)
      | none => none

/-- Consume the body of a JSON string (opening quote already consumed),
handling the simple escapes. -/
def parseStringChars : Nat → List Char → Option (String × List Char)
  | 0, _ => none
  | _ + 1, [] => none
  | fuel + 1, c :: rest =>
    if c = '"' then some ("", rest)
    else if c = '\\' then
      match rest with
      | [] => none
      | e :: rest2 =>
        let esc : Option Char :=
          if e = '"' then some '"'
          else if e = '\\' then some '\\'
          else if e = '/' then some '/'
          else if e = 'n' then some '\n'
          else if e = 't' then some '\t'
          else if e = 'r' then some '\r'
          else none
        match esc with
        | none => none
        | some ec =>
          match parseStringChars fuel rest2 with
          | some (s, r) => some (String.mk (ec :: s.data), r)
          | none => none
    else
      match parseStringChars fuel rest with
      | some (s, r) => some (String.mk (c :: s.data), r)
      | none => none

/-- The `{` character (object opener). -/
def lbrace : Char := Char.ofNat 123

/-- The `}` character (object closer). -/
def rbrace : Char := Char.ofNat 125

mutual

/-- Consume one JSON value. -/
def parseValue : Nat → List Char → Option (GoVal × List Char)
  | 0, _ => none
  | fuel + 1, cs =>
    match skipWs cs with
    | [] => none
    | c :: rest =>
      if c = 'n' then (expectLit ['u', 'l', 'l'] rest).map fun r => (.null, r)
      else if c = 't' then (expectLit ['r', 'u', 'e'] rest).map fun r => (.bool true, r)
      else if c = 'f' then (expectLit ['a', 'l', 's', 'e'] rest).map fun r => (.bool false, r)
      else if c = '"' then (parseStringChars (fuel + 1) rest).map fun p => (.str p.1, p.2)
      else if c = '[' then
        match skipWs rest with
        | ']' :: r2 => some (.list [], r2)
        | r2 =>
          match parseValue fuel r2 with
          | some (v, r3) =>
            match parseArrayRest fuel r3 with
            | some (vs, r4) => some (.list (v :: vs), r4)
            | none => none
          | none => none
      else if c = lbrace then
        match skipWs rest with
        | d :: r2 =>
          if d = rbrace then some (.map [], r2)
          else
            match parseMember fuel (d :: r2) with
            | some (kv, r3) =>
              match parseObjectRest fuel r3 with
              | some (fs, r4) => some (.map (kv :: fs), r4)
              | none => none
            | none => none
        | [] => none
      else
        match parseNumber (c :: rest) with
        | some (n, r) => some (.num n, r)
        | none => none

/-- Consume `, value` repetitions then `]`. -/
def parseArrayRest : Nat → List Char → Option (List GoVal × List Char)
  | 0, _ => none
  | fuel + 1, cs =>
    match skipWs cs with
    | ']' :: r => some ([], r)
    | ',' :: r =>
      match parseValue fuel r with
      | some (v, r2) =>
        match parseArrayRest fuel r2 with
        | some (vs, r3) => some (v :: vs, r3)
        | none => none
      | none => none
    | _ => none

/-- Consume one `"key" : value` object member. -/
def parseMember : Nat → List Char → Option ((String × GoVal) × List Char)
  | 0, _ => none
  | fuel + 1, cs =>
    match skipWs cs with
    | '"' :: r =>
      match parseStringChars (fuel + 1) r with
      | some (k, r2) =>
        match skipWs r2 with
        | ':' :: r3 =>
          match parseValue fuel r3 with
          | some (v, r4) => some ((k, v), r4)
          | none => none
        | _ => none
      | none => none
    | _ => none

/-- Consume `, member` repetitions then `}`. -/
def parseObjectRest : Nat → List Char → Option (List (String × GoVal) × List Char)
  | 0, _ => none
  | fuel + 1, cs =>
    match skipWs cs with
    | ',' :: r =>
      match parseMember fuel r with
      | some (kv, r2) =>
        match parseObjectRest fuel r2 with
        | some (fs, r3) => some (kv :: fs, r3)
        | none => none
      | none => none
    | d :: r => if d = rbrace then some ([], r) else none
    | [] => none

end

/-- Embeds `json.Unmarshal(bytes, &data)`: decode the whole input (modulo
surrounding whitespace) as one JSON value, failing on malformed input or
trailing garbage. -/
def jsonUnmarshal (s : String) : Option GoVal :=
  match parseValue (s.length + 1) s.data with
  | some (v, rest) => if skipWs rest = [] then some v else none
  | none => none

/-! The opencdc record model and the processor itself. -/

/-- Embeds the `opencdc.Data` interface as it is dispatched on in
`processRecord`'s type switch: the `opencdc.StructuredData` variant, the
`opencdc.RawData` variant (a byte sequence, modelled as a string), and
`other` standing for any further dynamic type implementing the interface
(the `default` branch of the switch). -/
inductive Data where
  | structured : List (String × GoVal) → Data
  | raw : String → Data
  | other : Data
deriving Repr

/-- Embeds `opencdc.Change`: the payload's `Before` and `After` fields
(`nil` interface values become `none`). -/
structure Change where
  before : Option Data
  after : Option Data
deriving Repr

/-- Embeds `opencdc.Record` with the fields the processor touches or copies:
`Position` (opaque bytes, modelled as a string), `Operation`, `Metadata`,
`Key`, and `Payload`. -/
structure Record where
  position : String
  operation : Nat
  metadata : List (String × String)
  key : Option Data
  payload : Change
deriving Repr

/-- One element produced by the gojq iterator `p.jqCompiled.Run(data)`:
either a value or an in-band error value (gojq yields errors as iterator
elements satisfying the `error` interface). -/
inductive JqItem where
  | val : GoVal → JqItem
  | err : String → JqItem
deriving Repr

/-- Embeds the configured `Processor` after `Configure`: the stored config
strings plus the compiled queries.  The external engines are modelled by
their evaluation behaviour: `jmesSearch` is `p.jmesCompiled.Search`
(result value or Go error), `jqRun` is the full element sequence the gojq
iterator `p.jqCompiled.Run(data)` would yield. -/
structure ProcState where
  ptype : String
  pquery : String
  jmesSearch : GoVal → Except String GoVal
  jqRun : GoVal → List JqItem

/-- Embeds `strings.ToLower` (ASCII fragment, which covers the recognized
backend identifiers). -/
def strToLower (s : String) : String :=
  String.mk (s.data.map Char.toLower)

/-- Embeds the payload-extraction phase of `processRecord` (processor.go
lines 141–156): `nil` After fails with "no data", `StructuredData` is
normalized via `convertStructuredData`, `RawData` is JSON-decoded, and any
other dynamic payload type fails with "unsupported payload type". -/
def extractData (r : Record) : Except String GoVal :=
  match r.payload.after with
  | none => .error "no data in record.Payload.After"
  | some (.structured m) => .ok (convertStructuredData (.structured m))
  | some (.raw bytes) =>
      match jsonUnmarshal bytes with
      | some d => .ok d
      | none => .error "invalid JSON payload"
  | some .other => .error "unsupported payload type"

/-- Embeds the gojq first-result consumption (processor.go lines 169–179):
only `iter.Next()` is ever called once; an exhausted iterator fails with
"no results", an in-band error element fails wrapped, otherwise the first
value is the result. -/
def jqFirst (items : List JqItem) : Except String GoVal :=
  match items with
  | [] => .error "jq query produced no results"
  | .err m :: _ => .error ("jq query failed: " ++ m)
  | .val v :: _ => .ok v

/-- Embeds the query-evaluation switch of `processRecord` (lines 159–180):
dispatch on `strings.ToLower(p.config.Type)`; the jmespath branch wraps a
`Search` error, the jq branch consumes the first iterator element.  The
switch has no default case, so an unrecognized type leaves `result` as the
`nil` interface value with no error. -/
def evalQuery (p : ProcState) (data : GoVal) : Except String GoVal :=
  if strToLower p.ptype = "jmespath" then
    match p.jmesSearch data with
    | .ok r => .ok r
    | .error e => .error ("JMESPath query failed: " ++ e)
  else if strToLower p.ptype = "jq" then
    jqFirst (p.jqRun data)
  else
    .ok .null

/-- Embeds the result-encoding switch of `processRecord` (lines 185–201):
a `map[string]interface{}` result becomes `StructuredData` directly, a
`[]interface{}` result is wrapped as `StructuredData{"result": v}`, and
anything else is JSON-marshalled into `RawData`.  (`json.Marshal` cannot
fail on these values, see `jsonMarshal`.) -/
def encodeResult : GoVal → Data
  | .map fs => .structured fs
  | .list xs => .structured [("result", .list xs)]
  | v => .raw (jsonMarshal v)

/-- The record copy with its `Payload.After` replaced (lines 182–201:
`recordCopy := record; recordCopy.Payload.After = ...`). -/
def setAfter (r : Record) (d : Option Data) : Record :=
  { r with payload := { r.payload with after := d } }

/-- Embeds `processRecord`: extract and normalize the payload, evaluate the
configured query, encode the result into a copy of the record. -/
def processRecord (p : ProcState) (r : Record) : Except String Record :=
  match extractData r with
  | .error e => .error e
  | .ok data =>
      match evalQuery p data with
      | .error e => .error e
      | .ok result => .ok (setAfter r (some (encodeResult result)))

/-- Embeds `Process` (lines 116–133): per record, a processing failure is
logged and the record skipped; successes are appended in input order. -/
def Process (p : ProcState) : List Record → List Record
  | [] => []
  | r :: rest =>
      match processRecord p r with
      | .ok pr => pr :: Process p rest
      | .error _ => Process p rest

/-- Configuration intake: `config.Config` is a map from option name to
string value; absent keys read as the parameter default `""`. -/
def cfgGet (cfg : List (String × String)) (key : String) : String :=
  (cfg.lookup key).getD ""

/-- Embeds `Configure` (lines 76–107) including the `sdk.ParseConfig`
validation driven by the `Specification` parameters: `type` is required and
must be one of `jmespath`/`jq` (`ValidationInclusion`, case-sensitive),
`query` is required; then the expression is compiled for the selected
backend.  The external compilers `jmespath.Compile` and `gojq.Parse` are
modelled as parameters yielding the compiled query's evaluation behaviour
(`none` = compilation error).  On success the processor state holds the
compiled query; on error no state is produced. -/
def Configure (jmesCompile : String → Option (GoVal → Except String GoVal))
    (jqParse : String → Option (GoVal → List JqItem))
    (cfg : List (String × String)) : Except String ProcState :=
  let t := cfgGet cfg "type"
  let q := cfgGet cfg "query"
  if t = "" then .error "failed to parse config: required parameter type missing"
  else if ¬(t = "jmespath" ∨ t = "jq") then
    .error ("failed to parse config: type value must be one of jmespath jq, got " ++ t)
  else if q = "" then .error "failed to parse config: required parameter query missing"
  else if strToLower t = "jmespath" then
    match jmesCompile q with
    | some f => .ok { ptype := t, pquery := q, jmesSearch := f, jqRun := fun _ => [] }
    | none => .error "invalid JMESPath expression"
  else if strToLower t = "jq" then
    match jqParse q with
    | some g =>
        .ok { ptype := t, pquery := q, jmesSearch := fun _ => .error "nil jmespath", jqRun := g }
    | none => .error "invalid jq expression"
  else .error ("unsupported query type: " ++ t)

/-- Modelled from the spec: the go-jmespath engine's `Search` (Backend A)
is not part of this repository; per the spec a path-expression
evaluation is "a single deterministic evaluation; absence of a matching path
yields `Null`, not an error".  A compiled dotted path `a.b.c` is the key
list `["a","b","c"]`; each step looks the key up in the current map and any
miss yields `Null`. -/
def jmesSearchPath (path : List String) (v : GoVal) : GoVal :=
  match path with
  | [] => v
  | k :: rest =>
      match v with
      | .map fs =>
          match fs.lookup k with
          | some w => jmesSearchPath rest w
          | none => .null
      | _ => .null

/-- Shape test for the `default` branch of the result-encoding switch:
scalar (bool/number/string) or null results. -/
def isScalarOrNull : GoVal → Bool
  | .null => true
  | .bool _ => true
  | .num _ => true
  | .str _ => true
  | _ => false

/-- A concrete configured jq processor whose compiled query yields two
values, used to exercise the first-result semantics. -/
def sampleJqProc : ProcState :=
  { ptype := "jq", pquery := ".x"
    jmesSearch := fun _ => .error "nil jmespath"
    jqRun := fun _ => [.val (.num 1), .val (.num 2)] }

/-- A concrete configured jmespath processor whose compiled query is the
dotted path `missing`. -/
def sampleJmesProc : ProcState :=
  { ptype := "jmespath", pquery := "missing"
    jmesSearch := fun d => .ok (jmesSearchPath ["missing"] d)
    jqRun := fun _ => [] }

/-- A concrete record with a structured payload `{"x": 1}`. -/
def sampleRecX : Record :=
  { position := "pos-0", operation := 1, metadata := [("k", "v")]
    key := some (.raw "key-0")
    payload := { before := none, after := some (.structured [("x", .num 1)]) } }

/-- A concrete record with a structured payload `{"a": 1}`. -/
def sampleRecA : Record :=
  { position := "pos-1", operation := 2, metadata := []
    key := none
    payload := { before := some (.raw "old"), after := some (.structured [("a", .num 1)]) } }

/-- A concrete record whose raw payload is not JSON. -/
def badRawRec : Record :=
  { position := "pos-2", operation := 1, metadata := []
    key := none
    payload := { before := none, after := some (.raw "invalid json") } }

/-- A concrete record with no payload After data. -/
def noAfterRec : Record :=
  { position := "pos-3", operation := 1, metadata := []
    key := none
    payload := { before := none, after := none } }
mutual

theorem convert_noStructured (v : GoVal) :
    noStructured (convertStructuredData v) = true := by
  cases v with
  | null => rfl
  | bool b => rfl
  | num n => rfl
  | str s => rfl
  | list xs => simpa [convertStructuredData, noStructured] using convertList_noStructured xs
  | map fs => simpa [convertStructuredData, noStructured] using convertFields_noStructured fs
  | structured fs => simpa [convertStructuredData, noStructured] using convertFields_noStructured fs

theorem convertList_noStructured (xs : List GoVal) :
    noStructuredList (convertList xs) = true := by
  cases xs with
  | nil => rfl
  | cons x xs =>
    simp [convertList, noStructuredList, convert_noStructured x, convertList_noStructured xs]

theorem convertFields_noStructured (fs : List (String × GoVal)) :
    noStructuredFields (convertFields fs) = true := by
  cases fs with
  | nil => rfl
  | cons kv rest =>
    obtain ⟨k, v⟩ := kv
    simp [convertFields, noStructuredFields, convert_noStructured v,
      convertFields_noStructured rest]

end

mutual

theorem convert_id_of_noStructured (v : GoVal) (h : noStructured v = true) :
    convertStructuredData v = v := by
  cases v with
  | null => rfl
  | bool b => rfl
  | num n => rfl
  | str s => rfl
  | list xs =>
    simp only [noStructured] at h
    simp [convertStructuredData, convertList_id_of_noStructured xs h]
  | map fs =>
    simp only [noStructured] at h
    simp [convertStructuredData, convertFields_id_of_noStructured fs h]
  | structured fs => simp [noStructured] at h

theorem convertList_id_of_noStructured (xs : List GoVal)
    (h : noStructuredList xs = true) : convertList xs = xs := by
  cases xs with
  | nil => rfl
  | cons x xs =>
    simp only [noStructuredList, Bool.and_eq_true] at h
    simp [convertList, convert_id_of_noStructured x h.1,
      convertList_id_of_noStructured xs h.2]

theorem convertFields_id_of_noStructured (fs : List (String × GoVal))
    (h : noStructuredFields fs = true) : convertFields fs = fs := by
  cases fs with
  | nil => rfl
  | cons kv rest =>
    obtain ⟨k, v⟩ := kv
    simp only [noStructuredFields, Bool.and_eq_true] at h
    simp [convertFields, convert_id_of_noStructured v h.1,
      convertFields_id_of_noStructured rest h.2]

end


theorem process_append (p : ProcState) (a b : List Record) :
    Process p (a ++ b) = Process p a ++ Process p b := by
  induction a with
  | nil => simp [Process]
  | cons r rest ih =>
    simp only [List.cons_append, Process]
    cases processRecord p r with
    | ok pr => simp [ih]
    | error e => simp [ih]

/-- C1: the result encoder is exactly shape-directed: a string-keyed map
result becomes the structured payload directly (unwrapped), a list result
becomes a structured payload with the single key "result" bound to that
list, and a scalar or null result becomes a raw payload holding its JSON
text encoding (the string "John Doe" yields the raw bytes `"John Doe"`
with quotes, the number 42 yields the raw bytes `42`). -/
theorem c1_result_encoder_shape_policy (fs : List (String × GoVal))
    (xs : List GoVal) (v : GoVal) (h : isScalarOrNull v = true) :
    encodeResult (.map fs) = .structured fs ∧
    encodeResult (.list xs) = .structured [("result", .list xs)] ∧
    encodeResult v = .raw (jsonMarshal v) ∧
    encodeResult (.str "John Doe") = .raw "\"John Doe\"" ∧
    encodeResult (.num 42) = .raw "42" := by
  refine ⟨rfl, rfl, ?_, by rfl, by rfl⟩
  cases v with
  | null => rfl
  | bool b => rfl
  | num n => rfl
  | str s => rfl
  | list xs => simp [isScalarOrNull] at h
  | map fs => simp [isScalarOrNull] at h
  | structured fs => simp [isScalarOrNull] at h

theorem c1_result_encoder_shape_policy_witness :
    encodeResult (.map [("a", .num 1)]) = .structured [("a", .num 1)] ∧
    encodeResult (.list [.num 1]) = .structured [("result", .list [.num 1])] ∧
    encodeResult .null = .raw (jsonMarshal .null) ∧
    encodeResult (.str "John Doe") = .raw "\"John Doe\"" ∧
    encodeResult (.num 42) = .raw "42" :=
  c1_result_encoder_shape_policy [("a", .num 1)] [.num 1] .null rfl

/-- C2: Process is total and per-record: the output is exactly the
in-order sequence of successfully processed records (one output per
succeeding input, failures excluded), it is never longer than the input,
and an empty batch yields an empty batch. -/
theorem c2_process_batch_isolation (p : ProcState) (records : List Record) :
    Process p records = records.filterMap (fun r => (processRecord p r).toOption) ∧
    (Process p records).length ≤ records.length ∧
    Process p [] = [] := by
  refine ⟨?_, ?_, rfl⟩
  · induction records with
    | nil => rfl
    | cons r rest ih =>
      simp only [Process, List.filterMap_cons]
      cases processRecord p r with
      | ok pr => simp [Except.toOption, ih]
      | error e => simp [Except.toOption, ih]
  · induction records with
    | nil => simp [Process]
    | cons r rest ih =>
      simp only [Process]
      cases processRecord p r with
      | ok pr => simpa using ih
      | error e => exact Nat.le_succ_of_le ih

/-- C6: payload normalization is a total recursive function over
arbitrarily nested value trees: no backend-specific structured-map node
remains anywhere in its output, structured maps become plain maps with
recursively normalized values, lists are normalized elementwise, and
primitive leaves (null, bool, number, string) pass through unchanged. -/
theorem c6_normalization_total_recursive (v : GoVal) (b : Bool) (n : Int)
    (s : String) (xs : List GoVal) (fs : List (String × GoVal)) :
    noStructured (convertStructuredData v) = true ∧
    convertStructuredData (.structured fs) = .map (convertFields fs) ∧
    convertStructuredData (.map fs) = .map (convertFields fs) ∧
    convertStructuredData (.list xs) = .list (convertList xs) ∧
    convertStructuredData .null = .null ∧
    convertStructuredData (.bool b) = .bool b ∧
    convertStructuredData (.num n) = .num n ∧
    convertStructuredData (.str s) = .str s :=
  ⟨convert_noStructured v, rfl, rfl, rfl, rfl, rfl, rfl, rfl⟩

/-- C3: with the jq backend only the first element of the compiled query's
result sequence is consumed: an empty sequence fails the record (it is
dropped with "no results"), a first element that is an in-band error value
fails the record with that error wrapped, and otherwise the first value —
independent of all later elements — becomes the record's result. -/
theorem c3_jq_first_result_only (p : ProcState) (r : Record) (d : GoVal)
    (hty : strToLower p.ptype = "jq") (hd : extractData r = .ok d) :
    (p.jqRun d = [] → processRecord p r = .error "jq query produced no results") ∧
    (∀ e rest, p.jqRun d = .err e :: rest →
      processRecord p r = .error ("jq query failed: " ++ e)) ∧
    (∀ v rest, p.jqRun d = .val v :: rest →
      processRecord p r = .ok (setAfter r (some (encodeResult v)))) := by
  have hne : strToLower p.ptype ≠ "jmespath" := by rw [hty]; decide
  refine ⟨?_, ?_, ?_⟩
  · intro hrun
    simp [processRecord, hd, evalQuery, hne, hty, hrun, jqFirst]
  · intro e rest hrun
    simp [processRecord, hd, evalQuery, hne, hty, hrun, jqFirst]
  · intro v rest hrun
    simp [processRecord, hd, evalQuery, hne, hty, hrun, jqFirst]

theorem c3_jq_first_result_only_witness :
    (sampleJqProc.jqRun (.map [("x", .num 1)]) = [] →
      processRecord sampleJqProc sampleRecX = .error "jq query produced no results") ∧
    (∀ e rest, sampleJqProc.jqRun (.map [("x", .num 1)]) = .err e :: rest →
      processRecord sampleJqProc sampleRecX = .error ("jq query failed: " ++ e)) ∧
    (∀ v rest, sampleJqProc.jqRun (.map [("x", .num 1)]) = .val v :: rest →
      processRecord sampleJqProc sampleRecX = .ok (setAfter sampleRecX (some (encodeResult v)))) :=
  c3_jq_first_result_only sampleJqProc sampleRecX (.map [("x", .num 1)]) rfl rfl

/-- C5: with the JMESPath backend an input holding no value at the queried
path evaluates to Null rather than failing (the modelled path engine yields
Null on a missing key), so the record is kept and emitted with a raw
payload holding the JSON text `null`. -/
theorem c5_jmespath_absent_path_null (p : ProcState) (r : Record) (d : GoVal)
    (k : String) (path : List String) (fs : List (String × GoVal))
    (hty : strToLower p.ptype = "jmespath")
    (hd : extractData r = .ok d)
    (hnull : p.jmesSearch d = .ok .null) :
    (fs.lookup k = none → jmesSearchPath (k :: path) (.map fs) = .null) ∧
    processRecord p r = .ok (setAfter r (some (.raw "null"))) := by
  constructor
  · intro hmiss
    simp [jmesSearchPath, hmiss]
  · have : encodeResult .null = .raw "null" := rfl
    simp [processRecord, hd, evalQuery, hty, hnull, this]

theorem c5_jmespath_absent_path_null_witness :
    ([("a", GoVal.num 1)].lookup "missing" = none →
      jmesSearchPath ["missing"] (.map [("a", .num 1)]) = .null) ∧
    processRecord sampleJmesProc sampleRecA = .ok (setAfter sampleRecA (some (.raw "null"))) :=
  c5_jmespath_absent_path_null sampleJmesProc sampleRecA (.map [("a", .num 1)])
    "missing" [] [("a", .num 1)] rfl rfl rfl

/-- C8: on map-shaped result values the result encoder and the payload
normalizer are mutually inverse: encoding the map result yields the
structured payload holding it directly, and normalizing that structured
payload reproduces the original map value tree. -/
theorem c8_encode_normalize_roundtrip (fs : List (String × GoVal))
    (h : noStructuredFields fs = true) :
    encodeResult (.map fs) = .structured fs ∧
    convertStructuredData (.structured fs) = .map fs := by
  refine ⟨rfl, ?_⟩
  simp [convertStructuredData, convertFields_id_of_noStructured fs h]

theorem c8_encode_normalize_roundtrip_witness :
    encodeResult (.map [("name", .str "John Doe"), ("n", .num 42)]) =
      .structured [("name", .str "John Doe"), ("n", .num 42)] ∧
    convertStructuredData (.structured [("name", .str "John Doe"), ("n", .num 42)]) =
      .map [("name", .str "John Doe"), ("n", .num 42)] :=
  c8_encode_normalize_roundtrip [("name", .str "John Doe"), ("n", .num 42)] rfl

/-- C7: a record whose raw-bytes payload fails to decode as JSON fails
processing with "invalid JSON payload" and contributes zero records to the
output batch, and the batch result is exactly what it would have been had
that record been absent. -/
theorem c7_malformed_raw_dropped (p : ProcState) (r : Record) (bytes : String)
    (l1 l2 : List Record)
    (hpl : r.payload.after = some (.raw bytes))
    (hbad : jsonUnmarshal bytes = none) :
    processRecord p r = .error "invalid JSON payload" ∧
    Process p (l1 ++ r :: l2) = Process p (l1 ++ l2) := by
  have herr : processRecord p r = .error "invalid JSON payload" := by
    simp [processRecord, extractData, hpl, hbad]
  refine ⟨herr, ?_⟩
  rw [process_append, process_append]
  simp [Process, herr]

theorem c7_malformed_raw_dropped_witness :
    processRecord sampleJmesProc badRawRec = .error "invalid JSON payload" ∧
    Process sampleJmesProc ([sampleRecA] ++ badRawRec :: [sampleRecX]) =
      Process sampleJmesProc ([sampleRecA] ++ [sampleRecX]) :=
  c7_malformed_raw_dropped sampleJmesProc badRawRec "invalid json"
    [sampleRecA] [sampleRecX] rfl rfl

/-- C9: a successfully processed record is emitted as a copy of the input
in which only the payload's After field was replaced by the encoded query
result; its position, operation, metadata, key and the payload's Before
field are identical to the input's (the input value itself is immutable in
this embedding, so the caller's record is unchanged). -/
theorem c9_record_copy_frame (p : ProcState) (r r' : Record)
    (h : processRecord p r = .ok r') :
    r'.position = r.position ∧ r'.operation = r.operation ∧
    r'.metadata = r.metadata ∧ r'.key = r.key ∧
    r'.payload.before = r.payload.before ∧
    ∃ result, r' = setAfter r (some (encodeResult result)) := by
  unfold processRecord at h
  cases hx : extractData r with
  | error e => rw [hx] at h; exact absurd h (by simp)
  | ok d =>
    rw [hx] at h
    simp only at h
    cases hv : evalQuery p d with
    | error e => rw [hv] at h; exact absurd h (by simp)
    | ok result =>
      rw [hv] at h
      simp only [Except.ok.injEq] at h
      subst h
      exact ⟨rfl, rfl, rfl, rfl, rfl, result, rfl⟩

theorem c9_record_copy_frame_witness :
    (setAfter sampleRecA (some (.raw "null"))).position = sampleRecA.position ∧
    (setAfter sampleRecA (some (.raw "null"))).operation = sampleRecA.operation ∧
    (setAfter sampleRecA (some (.raw "null"))).metadata = sampleRecA.metadata ∧
    (setAfter sampleRecA (some (.raw "null"))).key = sampleRecA.key ∧
    (setAfter sampleRecA (some (.raw "null"))).payload.before = sampleRecA.payload.before ∧
    ∃ result, setAfter sampleRecA (some (.raw "null")) =
      setAfter sampleRecA (some (encodeResult result)) :=
  c9_record_copy_frame sampleJmesProc sampleRecA (setAfter sampleRecA (some (.raw "null"))) rfl

/-- C10: a record with no payload After data, or whose After data is of an
unrecognized dynamic type (neither structured nor raw), fails processing
with a per-record error and is dropped from the output batch, while the
batch as a whole still succeeds with the remaining records. -/
theorem c10_unsupported_payload_dropped (p : ProcState) (r : Record)
    (l1 l2 : List Record)
    (h : r.payload.after = none ∨ r.payload.after = some .other) :
    (∃ e, processRecord p r = .error e) ∧
    Process p (l1 ++ r :: l2) = Process p (l1 ++ l2) := by
  have herr : ∃ e, processRecord p r = .error e := by
    rcases h with h | h
    · exact ⟨"no data in record.Payload.After", by simp [processRecord, extractData, h]⟩
    · exact ⟨"unsupported payload type", by simp [processRecord, extractData, h]⟩
  refine ⟨herr, ?_⟩
  obtain ⟨e, he⟩ := herr
  rw [process_append, process_append]
  simp [Process, he]

theorem c10_unsupported_payload_dropped_witness :
    (∃ e, processRecord sampleJmesProc noAfterRec = .error e) ∧
    Process sampleJmesProc ([sampleRecA] ++ noAfterRec :: [sampleRecX]) =
      Process sampleJmesProc ([sampleRecA] ++ [sampleRecX]) :=
  c10_unsupported_payload_dropped sampleJmesProc noAfterRec
    [sampleRecA] [sampleRecX] (Or.inl rfl)

/-- C4: Configure fails exactly on invalid configuration: it returns an
error (producing no operating processor state) whenever the type key is
missing, the query key is missing, the named backend is not one of the two
recognized identifiers, or the expression fails to compile for the selected
backend; conversely it succeeds for every configuration naming a recognized
backend with a compiling expression — so expression-syntax failures are
always configuration-time failures. -/
theorem c4_configure_validation
    (jc : String → Option (GoVal → Except String GoVal))
    (jp : String → Option (GoVal → List JqItem))
    (cfg : List (String × String)) :
    (∃ s, Configure jc jp cfg = .ok s) ↔
      ((cfgGet cfg "type" = "jmespath" ∧ (jc (cfgGet cfg "query")).isSome = true) ∨
        (cfgGet cfg "type" = "jq" ∧ (jp (cfgGet cfg "query")).isSome = true)) ∧
      cfgGet cfg "query" ≠ "" := by
  constructor
  · rintro ⟨s, hs⟩
    simp only [Configure] at hs
    by_cases h1 : cfgGet cfg "type" = ""
    · rw [if_pos h1] at hs; cases hs
    rw [if_neg h1] at hs
    by_cases h2 : cfgGet cfg "type" = "jmespath" ∨ cfgGet cfg "type" = "jq"
    · rw [if_neg (not_not_intro h2)] at hs
      by_cases h3 : cfgGet cfg "query" = ""
      · rw [if_pos h3] at hs; cases hs
      rw [if_neg h3] at hs
      rcases h2 with h2 | h2
      · have hlow : strToLower (cfgGet cfg "type") = "jmespath" := by rw [h2]; rfl
        rw [if_pos hlow] at hs
        cases hjc : jc (cfgGet cfg "query") with
        | none => rw [hjc] at hs; cases hs
        | some f => exact ⟨Or.inl ⟨h2, rfl⟩, h3⟩
      · have hne : ¬ strToLower (cfgGet cfg "type") = "jmespath" := by rw [h2]; decide
        have hlow : strToLower (cfgGet cfg "type") = "jq" := by rw [h2]; rfl
        rw [if_neg hne, if_pos hlow] at hs
        cases hjp : jp (cfgGet cfg "query") with
        | none => rw [hjp] at hs; cases hs
        | some g => exact ⟨Or.inr ⟨h2, rfl⟩, h3⟩
    · rw [if_pos h2] at hs; cases hs
  · rintro ⟨hbk, hq⟩
    simp only [Configure]
    rcases hbk with ⟨ht, hc⟩ | ⟨ht, hc⟩
    · have h1 : ¬ cfgGet cfg "type" = "" := by rw [ht]; decide
      rw [if_neg h1, if_neg (not_not_intro (Or.inl ht)), if_neg hq]
      have hlow : strToLower (cfgGet cfg "type") = "jmespath" := by rw [ht]; rfl
      rw [if_pos hlow]
      cases hsome : jc (cfgGet cfg "query") with
      | none => rw [hsome] at hc; cases hc
      | some f => exact ⟨_, rfl⟩
    · have h1 : ¬ cfgGet cfg "type" = "" := by rw [ht]; decide
      rw [if_neg h1, if_neg (not_not_intro (Or.inr ht)), if_neg hq]
      have hne : ¬ strToLower (cfgGet cfg "type") = "jmespath" := by rw [ht]; decide
      have hlow : strToLower (cfgGet cfg "type") = "jq" := by rw [ht]; rfl
      rw [if_neg hne, if_pos hlow]
      cases hsome : jp (cfgGet cfg "query") with
      | none => rw [hsome] at hc; cases hc
      | some g => exact ⟨_, rfl⟩
